import Mathlib

/-!
# Verification of `style_transfer.py`

A shallow embedding of the core data model and operations of the
`style_transfer` repository (single source file `style_transfer.py`),
together with theorems settling the frozen specification claims.

Modelling conventions:
* numpy float32 arithmetic is modelled over an abstract field (instantiated
  with `ℚ` for concrete evaluation); `np.sqrt` is an abstract function
  parameter, since the claims under verification are structural identities
  that hold for any interpretation of the square root;
* a 2-D spatial buffer of shape `h × w` is a function `ZMod h → ZMod w → α`,
  which makes `np.roll`'s circular shift (`out[i] = a[(i-s) mod n]`) exact
  subtraction on the index type;
* PIL image resampling (`Image.resize`) is an external collaborator per the
  spec's scope, so the interpolated *values* are an abstract `Resampler`
  parameter, while the in-repo `resize` wrapper's shape behaviour (output
  always has the requested shape) is modelled exactly.
-/

namespace StyleTransfer

/-! ## Tiling (from `CaffeModel.eval_sc_grad` / `eval_features_once`)

The source computes, per axis:
`ntiles = (img_size - 1) // tile_size + 1`, `tile_size = img_size // ntiles`,
then tile `i` spans `[i*tile_size, (i+1)*tile_size)` except that the last
tile's end is clamped up to `img_size`. -/

/-- The tile count `ntiles = (img_size - 1) // tile_size + 1` (per axis). -/
def ntilesAxis (size tileSize : ℕ) : ℕ := (size - 1) / tileSize + 1

/-- The recomputed exact tile size `img_size // ntiles` (per axis). -/
def tileSizeExact (size tileSize : ℕ) : ℕ := size / ntilesAxis size tileSize

/-- Tile `i` starts at `i * tile_size` (per axis): `start = xy * tile_size`. -/
def tileStart (size tileSize i : ℕ) : ℕ := i * tileSizeExact size tileSize

/-- Tile `i` ends at `start + tile_size`, except the last tile, whose end is
set to `img_size` (per axis). -/
def tileEnd (size tileSize i : ℕ) : ℕ :=
  if i = ntilesAxis size tileSize - 1 then size
  else (i + 1) * tileSizeExact size tileSize

/-- The extent (number of pixels) of tile `i` along one axis. -/
def tileExtent (size tileSize i : ℕ) : ℕ :=
  tileEnd size tileSize i - tileStart size tileSize i

section TilingLemmas

/-- Division facts packaged for the tiling proofs: writing `n = ntilesAxis`
and `t = tileSizeExact`, we have `n*t ≤ size < n*t + n` and `0 < t`. -/
theorem tiling_div_facts (size tileSize : ℕ) (hs : 0 < size) (ht : 0 < tileSize) :
    0 < ntilesAxis size tileSize ∧
    ntilesAxis size tileSize * tileSizeExact size tileSize ≤ size ∧
    size < ntilesAxis size tileSize * tileSizeExact size tileSize
             + ntilesAxis size tileSize ∧
    0 < tileSizeExact size tileSize := by
  have hn : 0 < ntilesAxis size tileSize := Nat.succ_pos _
  have hle : ntilesAxis size tileSize ≤ size := by
    have h1 : (size - 1) / tileSize ≤ size - 1 := Nat.div_le_self _ _
    unfold ntilesAxis
    omega
  have hdm := Nat.div_add_mod size (ntilesAxis size tileSize)
  have hmlt := Nat.mod_lt size hn
  have htpos : 0 < tileSizeExact size tileSize := by
    unfold tileSizeExact
    exact Nat.div_pos hle hn
  refine ⟨hn, ?_, ?_, htpos⟩ <;> unfold tileSizeExact <;> omega

/-- The non-last tiles have extent exactly `tileSizeExact`, and the last tile
absorbs the remainder (extent `size - (n-1)*t ≥ t`). -/
theorem tileExtent_eq (size tileSize i : ℕ) (hs : 0 < size) (ht : 0 < tileSize) :
    (i < ntilesAxis size tileSize - 1 → tileExtent size tileSize i = tileSizeExact size tileSize) ∧
    (i = ntilesAxis size tileSize - 1 →
      tileExtent size tileSize i
        = size - (ntilesAxis size tileSize - 1) * tileSizeExact size tileSize) := by
  obtain ⟨hn, h1, h2, h3⟩ := tiling_div_facts size tileSize hs ht
  constructor
  · intro hi
    unfold tileExtent tileEnd tileStart
    rw [if_neg (by omega)]
    have : (i + 1) * tileSizeExact size tileSize
        = i * tileSizeExact size tileSize + tileSizeExact size tileSize := by ring
    omega
  · intro hi
    subst hi
    unfold tileExtent tileEnd tileStart
    rw [if_pos rfl]

/-- Upper division bound: `p < (p / t + 1) * t` for positive `t`. -/
theorem lt_div_succ_mul (p t : ℕ) (ht : 0 < t) : p < (p / t + 1) * t := by
  have h1 := Nat.div_add_mod p t
  have h2 := Nat.mod_lt p ht
  have h3 : (p / t + 1) * t = t * (p / t) + t := by ring
  omega

/-- For `i < j` both in range, tile `i` ends no later than tile `j` starts:
the tile intervals are pairwise disjoint. -/
theorem tileEnd_le_tileStart (size tileSize i j : ℕ) (hs : 0 < size) (ht : 0 < tileSize)
    (hij : i < j) (hj : j < ntilesAxis size tileSize) :
    tileEnd size tileSize i ≤ tileStart size tileSize j := by
  unfold tileEnd tileStart
  rw [if_neg (by omega)]
  exact Nat.mul_le_mul_right _ (by omega)

/-- Every pixel coordinate `p < size` lies in exactly one tile interval
`[tileStart i, tileEnd i)` with `i < ntilesAxis`. -/
theorem tile_cover_unique (size tileSize p : ℕ) (hs : 0 < size) (ht : 0 < tileSize)
    (hp : p < size) :
    ∃! i, i < ntilesAxis size tileSize ∧
      tileStart size tileSize i ≤ p ∧ p < tileEnd size tileSize i := by
  obtain ⟨hn, h1, h2, h3⟩ := tiling_div_facts size tileSize hs ht
  set n := ntilesAxis size tileSize with hn_def
  set t := tileSizeExact size tileSize with ht_def
  -- the candidate index, clamped to the last tile
  refine ⟨min (p / t) (n - 1), ⟨?_, ?_, ?_⟩, ?_⟩
  · omega
  · -- start ≤ p
    unfold tileStart
    rw [← ht_def]
    have hq : p / t * t ≤ p := Nat.div_mul_le_self p t
    rcases Nat.le_total (p / t) (n - 1) with h | h
    · rw [Nat.min_eq_left h]; exact hq
    · rw [Nat.min_eq_right h]
      calc (n - 1) * t ≤ p / t * t := Nat.mul_le_mul_right _ h
        _ ≤ p := hq
  · -- p < end
    unfold tileEnd
    rw [← hn_def, ← ht_def]
    rcases Nat.lt_or_ge (p / t) (n - 1) with h | h
    · rw [Nat.min_eq_left (Nat.le_of_lt h), if_neg (by omega)]
      have := lt_div_succ_mul p t h3
      omega
    · rw [Nat.min_eq_right h, if_pos rfl]; exact hp
  · -- uniqueness
    rintro j ⟨hj, hjs, hje⟩
    by_contra hne
    -- two distinct tiles would both contain p, contradicting disjointness
    have hdisj : ∀ a b, a < b → b < n →
        tileEnd size tileSize a ≤ tileStart size tileSize b := fun a b hab hb =>
      tileEnd_le_tileStart size tileSize a b hs ht hab hb
    have hm : min (p / t) (n - 1) < n := by omega
    have hms : tileStart size tileSize (min (p / t) (n - 1)) ≤ p := by
      unfold tileStart
      rw [← ht_def]
      have hq : p / t * t ≤ p := Nat.div_mul_le_self p t
      rcases Nat.le_total (p / t) (n - 1) with h | h
      · rw [Nat.min_eq_left h]; exact hq
      · rw [Nat.min_eq_right h]
        calc (n - 1) * t ≤ p / t * t := Nat.mul_le_mul_right _ h
          _ ≤ p := hq
    have hme : p < tileEnd size tileSize (min (p / t) (n - 1)) := by
      unfold tileEnd
      rw [← hn_def, ← ht_def]
      rcases Nat.lt_or_ge (p / t) (n - 1) with h | h
      · rw [Nat.min_eq_left (Nat.le_of_lt h), if_neg (by omega)]
        have := lt_div_succ_mul p t h3
        omega
      · rw [Nat.min_eq_right h, if_pos rfl]; exact hp
    rcases Nat.lt_or_ge j (min (p / t) (n - 1)) with h | h
    · have := hdisj j _ h hm
      omega
    · have hlt : min (p / t) (n - 1) < j := by omega
      have := hdisj _ j hlt hj
      omega

/-- The tile extents along one axis sum to the image size: the tiles cover
the axis exactly, with no overlap and no gap. -/
theorem tileExtent_sum (size tileSize : ℕ) (hs : 0 < size) (ht : 0 < tileSize) :
    ∑ i ∈ Finset.range (ntilesAxis size tileSize), tileExtent size tileSize i = size := by
  obtain ⟨hn, h1, h2, h3⟩ := tiling_div_facts size tileSize hs ht
  obtain ⟨m, hm⟩ : ∃ m, ntilesAxis size tileSize = m + 1 := ⟨_, (Nat.succ_pred_eq_of_pos hn).symm⟩
  rw [hm, Finset.sum_range_succ]
  have hconst : ∀ i ∈ Finset.range m, tileExtent size tileSize i = tileSizeExact size tileSize := by
    intro i hi
    exact (tileExtent_eq size tileSize i hs ht).1 (by simp at hi; omega)
  rw [Finset.sum_congr rfl hconst, Finset.sum_const, Finset.card_range, smul_eq_mul]
  have hlast : tileExtent size tileSize m
      = size - (ntilesAxis size tileSize - 1) * tileSizeExact size tileSize :=
    (tileExtent_eq size tileSize m hs ht).2 (by omega)
  rw [hm] at h1 h2 hlast
  simp only [Nat.add_sub_cancel] at hlast
  rw [hlast]
  have hexp : (m + 1) * tileSizeExact size tileSize = m * tileSizeExact size tileSize
      + tileSizeExact size tileSize := by ring
  omega

/-- All tiles have positive extent, and the last tile is at least as large as
the base tile size. -/
theorem tileExtent_pos_ge (size tileSize : ℕ) (hs : 0 < size) (ht : 0 < tileSize) :
    (∀ i, i < ntilesAxis size tileSize → 0 < tileExtent size tileSize i) ∧
    tileSizeExact size tileSize
      ≤ tileExtent size tileSize (ntilesAxis size tileSize - 1) := by
  obtain ⟨hn, h1, h2, h3⟩ := tiling_div_facts size tileSize hs ht
  obtain ⟨m, hm⟩ : ∃ m, ntilesAxis size tileSize = m + 1 :=
    ⟨_, (Nat.succ_pred_eq_of_pos hn).symm⟩
  have hlast : tileExtent size tileSize m
      = size - (ntilesAxis size tileSize - 1) * tileSizeExact size tileSize :=
    (tileExtent_eq size tileSize m hs ht).2 (by omega)
  rw [hm] at h1 h2 hlast
  simp only [Nat.add_sub_cancel] at hlast
  have hexp : (m + 1) * tileSizeExact size tileSize = m * tileSizeExact size tileSize
      + tileSizeExact size tileSize := by ring
  constructor
  · intro i hi
    rcases Nat.lt_or_ge i (ntilesAxis size tileSize - 1) with h | h
    · rw [(tileExtent_eq size tileSize i hs ht).1 h]; exact h3
    · have hieq : i = m := by omega
      rw [hieq, hlast]; omega
  · rw [hm]
    simp only [Nat.add_sub_cancel]
    rw [hlast]; omega

/-- C1. For every image of size `(H, W)` and every positive maximum tile edge
`T`: the grid has `ceil(H/T) × ceil(W/T)` tiles; the base tile size per axis is
the integer division of the image size by the tile count; the tile rectangles
exactly partition the image (every pixel lies in exactly one tile) with no
zero-size tile; only the last tile per axis is larger, absorbing the remainder;
and tile extents sum to the image size. In particular, a 256×256 image with
`T = 100` yields a 3×3 grid whose last row/column tiles (extent 86) are
strictly larger than the others (extent 85), with extents summing to 256. -/
theorem tiling_partition_spec (H W T : ℕ) (hH : 0 < H) (hW : 0 < W) (hT : 0 < T) :
    ntilesAxis H T = (H + T - 1) / T ∧
    ntilesAxis W T = (W + T - 1) / T ∧
    tileSizeExact H T = H / ntilesAxis H T ∧
    (∀ p : ℕ × ℕ, p.1 < H → p.2 < W →
      ∃! yx : ℕ × ℕ, (yx.1 < ntilesAxis H T ∧ yx.2 < ntilesAxis W T) ∧
        (tileStart H T yx.1 ≤ p.1 ∧ p.1 < tileEnd H T yx.1) ∧
        (tileStart W T yx.2 ≤ p.2 ∧ p.2 < tileEnd W T yx.2)) ∧
    (∀ i, i < ntilesAxis H T → 0 < tileExtent H T i) ∧
    (∀ i, i < ntilesAxis H T - 1 → tileExtent H T i = tileSizeExact H T) ∧
    tileSizeExact H T ≤ tileExtent H T (ntilesAxis H T - 1) ∧
    (∑ i ∈ Finset.range (ntilesAxis H T), tileExtent H T i = H) ∧
    (∑ i ∈ Finset.range (ntilesAxis W T), tileExtent W T i = W) ∧
    (ntilesAxis 256 100 = 3 ∧ tileSizeExact 256 100 = 85 ∧
     tileExtent 256 100 0 = 85 ∧ tileExtent 256 100 1 = 85 ∧
     tileExtent 256 100 2 = 86 ∧ tileSizeExact 256 100 < tileExtent 256 100 2 ∧
     tileExtent 256 100 0 + tileExtent 256 100 1 + tileExtent 256 100 2 = 256) := by
  have hceil : ∀ s : ℕ, 0 < s → ntilesAxis s T = (s + T - 1) / T := by
    intro s hspos
    have hnum : s + T - 1 = (s - 1) + T := by omega
    rw [hnum, Nat.add_div_right _ hT]
    rfl
  refine ⟨hceil H hH, hceil W hW, rfl, ?_, (tileExtent_pos_ge H T hH hT).1, ?_,
    (tileExtent_pos_ge H T hH hT).2, tileExtent_sum H T hH hT, tileExtent_sum W T hW hT, ?_⟩
  · intro p hpy hpx
    obtain ⟨iy, hiy, huy⟩ := tile_cover_unique H T p.1 hH hT hpy
    obtain ⟨ix, hix, hux⟩ := tile_cover_unique W T p.2 hW hT hpx
    refine ⟨(iy, ix), ⟨⟨hiy.1, hix.1⟩, ⟨hiy.2.1, hiy.2.2⟩, ⟨hix.2.1, hix.2.2⟩⟩, ?_⟩
    rintro ⟨jy, jx⟩ ⟨⟨hjy, hjx⟩, ⟨hjys, hjye⟩, ⟨hjxs, hjxe⟩⟩
    have e1 : jy = iy := huy jy ⟨hjy, hjys, hjye⟩
    have e2 : jx = ix := hux jx ⟨hjx, hjxs, hjxe⟩
    simp [e1, e2]
  · intro i hi
    exact (tileExtent_eq H T i hH hT).1 hi
  · refine ⟨by decide, by decide, by decide, by decide, by decide, by decide, by decide⟩

/-- Witness for C1: the hypotheses are satisfiable at `H = W = 256`,
`T = 100`, where the tile extents sum to the image size. -/
theorem tiling_partition_spec_witness :
    0 < 256 ∧ (∑ i ∈ Finset.range (ntilesAxis 256 100), tileExtent 256 100 i = 256) :=
  ⟨by decide,
   (tiling_partition_spec 256 256 100 (by decide) (by decide) (by decide)).2.2.2.2.2.2.2.1⟩

end TilingLemmas

/-! ## Spatial buffers and `roll2`

A buffer of spatial shape `h × w` is a function `ZMod h → ZMod w → α`
(one channel; the channel axis of the 3-D `CxHxW` arrays is untouched by
every operation the claims concern, so it is dropped).  `np.roll(a, s, ax)`
satisfies `out[i] = a[(i - s) mod n]`, which is exactly subtraction on
`ZMod n`. -/

/-- A 2-D buffer of shape `h × w` over value type `α`. -/
@[reducible] def Buf (h w : ℕ) (α : Type) : Type := ZMod h → ZMod w → α

/-- The function `roll2(arr, xy)` from the source: `np.roll(np.roll(arr, xy[0], -1),
xy[1], -2)` — shifts the last (width) axis by `xy.1` and the height axis by
`xy.2`, wrapping at the edges, with an early return when `xy == 0`. -/
def roll2 {h w : ℕ} {α : Type} (xy : ℤ × ℤ) (arr : Buf h w α) : Buf h w α :=
  if xy = (0, 0) then arr
  else fun i j => arr (i - (xy.2 : ZMod h)) (j - (xy.1 : ZMod w))

/-- Applying `roll2` with any shift is pointwise the wrapped index lookup (the
`xy = 0` early return agrees with the general formula). -/
theorem roll2_apply {h w : ℕ} {α : Type} (xy : ℤ × ℤ) (arr : Buf h w α)
    (i : ZMod h) (j : ZMod w) :
    roll2 xy arr i j = arr (i - (xy.2 : ZMod h)) (j - (xy.1 : ZMod w)) := by
  unfold roll2
  split
  · rename_i hxy
    subst hxy
    simp
  · rfl

/-! ## AdamOptimizer (from `class AdamOptimizer`) -/

/-- The optimizer state: live parameter buffer `params`, hyperparameters,
step counter, accumulated roll offset `xy`, first moment `g1`, second moment
`g2`, and averaged iterate `p1`.  All buffers share the spatial shape
`h × w`, matching the data-model invariant. -/
structure AdamOptimizer (α : Type) (h w : ℕ) where
  params : Buf h w α
  step_size : α
  b1 : α
  b2 : α
  bp1 : α
  step : ℕ
  xy : ℤ × ℤ
  g1 : Buf h w α
  g2 : Buf h w α
  p1 : Buf h w α

/-- The constructor `AdamOptimizer.__init__`: zero moments and average, step
counter 0, zero accumulated roll offset. -/
def AdamOptimizer.init {α : Type} [Zero α] {h w : ℕ} (params : Buf h w α)
    (step_size b1 b2 bp1 : α) : AdamOptimizer α h w :=
  { params := params, step_size := step_size, b1 := b1, b2 := b2, bp1 := bp1
    step := 0, xy := (0, 0)
    g1 := fun _ _ => 0, g2 := fun _ _ => 0, p1 := fun _ _ => 0 }

/-- The method `AdamOptimizer.update`: one Adam step with iterate averaging, mirroring
the source line by line (`axpy(a, x, y)` is `a*x + y`).  `np.sqrt` is the
abstract `sqrt` parameter and the float32 machine epsilon is `eps`.  Returns
`((returned averaged image, loss), updated optimizer)`. -/
def AdamOptimizer.update {α : Type} [Field α] {h w : ℕ} (sqrt : α → α) (eps : α)
    (o : AdamOptimizer α h w) (opfunc : Buf h w α → α × Buf h w α) :
    (Buf h w α × α) × AdamOptimizer α h w :=
  let step := o.step + 1
  let lossGrad := opfunc o.params
  let grad := lossGrad.2
  -- Adam
  let g1 : Buf h w α := fun i j => (1 - o.b1) * grad i j + o.b1 * o.g1 i j
  let g2 : Buf h w α := fun i j => (1 - o.b2) * grad i j ^ 2 + o.b2 * o.g2 i j
  let step_size := o.step_size * sqrt (1 - o.b2 ^ step) / (1 - o.b1 ^ step)
  let params : Buf h w α :=
    fun i j => -step_size * (g1 i j / (sqrt (g2 i j) + eps)) + o.params i j
  -- Iterate averaging
  let p1 : Buf h w α := fun i j => (1 - o.bp1) * params i j + o.bp1 * o.p1 i j
  ((fun i j => roll2 (-o.xy.1, -o.xy.2) p1 i j / (1 - o.bp1 ^ step), lossGrad.1),
   { o with step := step, g1 := g1, g2 := g2, params := params, p1 := p1 })

/-- The method `AdamOptimizer.roll`: circularly shifts `g1`, `g2`, `p1` by `xy` and
accumulates `xy` into the running offset; early return when `xy == 0`.
The live parameter buffer is not rolled here (in the source it aliases the
model image, which is rolled separately by `CaffeModel.roll`). -/
def AdamOptimizer.roll {α : Type} {h w : ℕ} (o : AdamOptimizer α h w)
    (xy : ℤ × ℤ) : AdamOptimizer α h w :=
  if xy = (0, 0) then o
  else
    { o with
      xy := (o.xy.1 + xy.1, o.xy.2 + xy.2)
      g1 := roll2 xy o.g1
      g2 := roll2 xy o.g2
      p1 := roll2 xy o.p1 }

/-- Rolling by `xy` then by `-xy` is the identity on buffers. -/
theorem roll2_roll2_neg {h w : ℕ} {α : Type} (xy : ℤ × ℤ) (arr : Buf h w α) :
    roll2 (-xy.1, -xy.2) (roll2 xy arr) = arr := by
  funext i j
  rw [roll2_apply, roll2_apply]
  simp

/-- C3. For every optimizer state and every integer offset pair,
`roll(offset)` followed by `roll(-offset)` restores the first-moment,
second-moment, and averaged-iterate buffers exactly, and restores the
accumulated roll offset to its prior value. -/
theorem roll_then_roll_neg_restores {α : Type} {h w : ℕ}
    (o : AdamOptimizer α h w) (xy : ℤ × ℤ) :
    ((o.roll xy).roll (-xy.1, -xy.2)).g1 = o.g1 ∧
    ((o.roll xy).roll (-xy.1, -xy.2)).g2 = o.g2 ∧
    ((o.roll xy).roll (-xy.1, -xy.2)).p1 = o.p1 ∧
    ((o.roll xy).roll (-xy.1, -xy.2)).xy = o.xy := by
  by_cases hxy : xy = (0, 0)
  · subst hxy
    simp [AdamOptimizer.roll]
  · have hneg : ((-xy.1, -xy.2) : ℤ × ℤ) ≠ (0, 0) := by
      intro hc
      apply hxy
      have h1 : -xy.1 = 0 := congrArg Prod.fst hc
      have h2 : -xy.2 = 0 := congrArg Prod.snd hc
      have : xy = (xy.1, xy.2) := rfl
      rw [this]
      rw [show xy.1 = 0 from by omega, show xy.2 = 0 from by omega]
    unfold AdamOptimizer.roll
    rw [if_neg hxy, if_neg hneg]
    refine ⟨roll2_roll2_neg xy o.g1, roll2_roll2_neg xy o.g2, roll2_roll2_neg xy o.p1, ?_⟩
    show (o.xy.1 + xy.1 + -xy.1, o.xy.2 + xy.2 + -xy.2) = o.xy
    simp

/-- C2 (amended). One call to `AdamOptimizer.update` increments the step,
updates the moments as `m1 := b1*m1 + (1-b1)*grad` and
`m2 := b2*m2 + (1-b2)*grad²`, decreases `params` by
`step_size*sqrt(1-b2^step)/(1-b1^step) * m1/(sqrt(m2)+eps)`, sets
`avg := bp1*avg + (1-bp1)*params`, and returns the loss together with the
average *circularly un-shifted by the negated accumulated roll offset* and
divided by `1 - bp1^step`; this equals `avg/(1-bp1^step)` exactly when the
accumulated roll offset is zero. -/
theorem adam_update_spec {α : Type} [Field α] {h w : ℕ} (sqrt : α → α) (eps : α)
    (o : AdamOptimizer α h w) (opfunc : Buf h w α → α × Buf h w α) :
    (o.update sqrt eps opfunc).2.step = o.step + 1 ∧
    (o.update sqrt eps opfunc).2.g1
      = (fun i j => o.b1 * o.g1 i j + (1 - o.b1) * (opfunc o.params).2 i j) ∧
    (o.update sqrt eps opfunc).2.g2
      = (fun i j => o.b2 * o.g2 i j + (1 - o.b2) * (opfunc o.params).2 i j ^ 2) ∧
    (o.update sqrt eps opfunc).2.params
      = (fun i j => o.params i j
          - o.step_size * sqrt (1 - o.b2 ^ (o.step + 1)) / (1 - o.b1 ^ (o.step + 1))
            * ((o.update sqrt eps opfunc).2.g1 i j
                / (sqrt ((o.update sqrt eps opfunc).2.g2 i j) + eps))) ∧
    (o.update sqrt eps opfunc).2.p1
      = (fun i j => o.bp1 * o.p1 i j + (1 - o.bp1) * (o.update sqrt eps opfunc).2.params i j) ∧
    (o.update sqrt eps opfunc).1.2 = (opfunc o.params).1 ∧
    (o.update sqrt eps opfunc).1.1
      = (fun i j => roll2 (-o.xy.1, -o.xy.2) (o.update sqrt eps opfunc).2.p1 i j
          / (1 - o.bp1 ^ (o.step + 1))) := by
  have hg1 : (o.update sqrt eps opfunc).2.g1
      = fun i j => (1 - o.b1) * (opfunc o.params).2 i j + o.b1 * o.g1 i j := rfl
  have hg2 : (o.update sqrt eps opfunc).2.g2
      = fun i j => (1 - o.b2) * (opfunc o.params).2 i j ^ 2 + o.b2 * o.g2 i j := rfl
  have hparams : (o.update sqrt eps opfunc).2.params
      = fun i j =>
          -(o.step_size * sqrt (1 - o.b2 ^ (o.step + 1)) / (1 - o.b1 ^ (o.step + 1)))
            * ((o.update sqrt eps opfunc).2.g1 i j
                / (sqrt ((o.update sqrt eps opfunc).2.g2 i j) + eps))
          + o.params i j := rfl
  have hp1 : (o.update sqrt eps opfunc).2.p1
      = fun i j => (1 - o.bp1) * (o.update sqrt eps opfunc).2.params i j
          + o.bp1 * o.p1 i j := rfl
  refine ⟨rfl, ?_, ?_, ?_, ?_, rfl, rfl⟩
  · rw [hg1]; funext i j; ring
  · rw [hg2]; funext i j; ring
  · rw [hparams]; funext i j; ring
  · rw [hp1]; funext i j; ring

/-- Concrete 2×1-pixel optimizer state over `ℚ` with a nonzero accumulated
roll offset, used to exhibit the effect of the un-roll on the returned
average. -/
def adamCex : AdamOptimizer ℚ 2 1 :=
  { params := fun i _ => if i = 0 then 0 else 1
    step_size := 0, b1 := 0, b2 := 0, bp1 := 0
    step := 0, xy := (0, 1)
    g1 := fun _ _ => 0, g2 := fun _ _ => 0, p1 := fun _ _ => 0 }

/-- A loss/gradient evaluation function returning loss 0 and a zero
gradient. -/
def opfuncZero : Buf 2 1 ℚ → ℚ × Buf 2 1 ℚ := fun _ => (0, fun _ _ => 0)

/-- Counterexample to C2 as stated: for a state whose accumulated roll
offset is `(0, 1)`, the image returned by `update` is *not* the
bias-corrected average `avg/(1-bp1^step)` — it is that average circularly
un-shifted by the negated offset. -/
theorem adam_update_return_cex :
    ¬ ((adamCex.update (fun _ => 0) 1 opfuncZero).1.1
        = fun i j => (adamCex.update (fun _ => 0) 1 opfuncZero).2.p1 i j
            / (1 - adamCex.bp1 ^ (adamCex.update (fun _ => 0) 1 opfuncZero).2.step)) := by
  intro hc
  have h0 := congrFun (congrFun hc (0 : ZMod 2)) (0 : ZMod 1)
  simp only [AdamOptimizer.update, adamCex, opfuncZero, roll2] at h0
  norm_num at h0

/-- C10. The averaged iterate returned by `update` is circularly un-shifted
by the negated accumulated roll offset before the bias correction is
applied; the stored averaged buffer (`p1`) and the live parameter buffer
stay in rolled coordinates (their update formulas involve no roll), the
accumulated offset is unchanged, and when the accumulated offset is zero
the return equals the bias-corrected average exactly. -/
theorem adam_update_unrolled_return {α : Type} [Field α] {h w : ℕ} (sqrt : α → α) (eps : α)
    (o : AdamOptimizer α h w) (opfunc : Buf h w α → α × Buf h w α) :
    (o.update sqrt eps opfunc).1.1
      = (fun i j => roll2 (-o.xy.1, -o.xy.2) (o.update sqrt eps opfunc).2.p1 i j
          / (1 - o.bp1 ^ (o.step + 1))) ∧
    (o.update sqrt eps opfunc).2.xy = o.xy ∧
    (o.update sqrt eps opfunc).2.p1
      = (fun i j => (1 - o.bp1) * (o.update sqrt eps opfunc).2.params i j
          + o.bp1 * o.p1 i j) ∧
    (o.update sqrt eps opfunc).2.params
      = (fun i j =>
          -(o.step_size * sqrt (1 - o.b2 ^ (o.step + 1)) / (1 - o.b1 ^ (o.step + 1)))
            * ((o.update sqrt eps opfunc).2.g1 i j
                / (sqrt ((o.update sqrt eps opfunc).2.g2 i j) + eps))
          + o.params i j) ∧
    (o.xy = (0, 0) →
      (o.update sqrt eps opfunc).1.1
        = fun i j => (o.update sqrt eps opfunc).2.p1 i j / (1 - o.bp1 ^ (o.step + 1))) := by
  refine ⟨rfl, rfl, rfl, rfl, ?_⟩
  intro hxy
  have h1 : (o.update sqrt eps opfunc).1.1
      = fun i j => roll2 (-o.xy.1, -o.xy.2) (o.update sqrt eps opfunc).2.p1 i j
          / (1 - o.bp1 ^ (o.step + 1)) := rfl
  rw [h1, hxy]
  funext i j
  simp [roll2]

/-- Concrete 2×1-pixel optimizer state over `ℚ` with zero accumulated roll
offset. -/
def adamZeroRoll : AdamOptimizer ℚ 2 1 :=
  { adamCex with xy := (0, 0) }

/-- Witness for C10: at a concrete state whose accumulated roll offset is
zero, the returned image equals the bias-corrected average exactly. -/
theorem adam_update_unrolled_return_witness :
    (adamZeroRoll.update (fun _ => 0) 1 opfuncZero).1.1
      = fun i j => (adamZeroRoll.update (fun _ => 0) 1 opfuncZero).2.p1 i j
          / (1 - adamZeroRoll.bp1 ^ (adamZeroRoll.step + 1)) :=
  (adam_update_unrolled_return (fun _ => 0) 1 adamZeroRoll opfuncZero).2.2.2.2 rfl

/-! ## Buffer resampling and scale transitions
(`AdamOptimizer.set_params` / `AdamOptimizer.restore_state`) -/

/-- An abstract resampling filter: given a source buffer of any shape, it
produces interpolated values at any target shape.  The interpolation values
(PIL `Image.resize` with LANCZOS or BILINEAR filters) are an external
collaborator per the spec's scope; the in-repo `resize` wrapper guarantees
only that the output has the requested shape, which the embedding captures
by construction. -/
def Resampler (α : Type) : Type :=
  (h w : ℕ) → Buf h w α → (h' w' : ℕ) → Buf h' w' α

/-- An optimizer state packaged with its spatial shape, needed to state the
shape-changing operations `set_params` and `restore_state`. -/
structure AdamPack (α : Type) where
  h : ℕ
  w : ℕ
  opt : AdamOptimizer α h w

/-- The method `AdamOptimizer.set_params`: adopts `last_iterate` as the live parameter
buffer and resamples `g1`, `g2`, `p1` to its spatial shape; `g2` is clamped
non-negative (`np.maximum(0, ...)`) after bilinear resampling.  The step
counter and accumulated roll offset are untouched. -/
def AdamPack.set_params {α : Type} [Zero α] [LinearOrder α]
    (lanczos bilinear : Resampler α) (p : AdamPack α)
    (h' w' : ℕ) (lastIterate : Buf h' w' α) : AdamPack α :=
  ⟨h', w',
   { params := lastIterate
     step_size := p.opt.step_size, b1 := p.opt.b1, b2 := p.opt.b2, bp1 := p.opt.bp1
     step := p.opt.step, xy := p.opt.xy
     g1 := lanczos p.h p.w p.opt.g1 h' w'
     g2 := fun i j => max 0 (bilinear p.h p.w p.opt.g2 h' w' i j)
     p1 := lanczos p.h p.w p.opt.p1 h' w' }⟩

/-- The method `AdamOptimizer.restore_state`: adopts the saved optimizer's parameter
buffer, moment buffers, averaged-iterate buffer, step counter, and
accumulated roll offset verbatim (hyperparameters stay those of the
restoring optimizer), then rolls by the negated saved offset. -/
def AdamPack.restore_state {α : Type} (p saved : AdamPack α) : AdamPack α :=
  ⟨saved.h, saved.w,
   AdamOptimizer.roll
     { params := saved.opt.params
       step_size := p.opt.step_size, b1 := p.opt.b1, b2 := p.opt.b2, bp1 := p.opt.bp1
       step := saved.opt.step, xy := saved.opt.xy
       g1 := saved.opt.g1, g2 := saved.opt.g2, p1 := saved.opt.p1 }
     (-saved.opt.xy.1, -saved.opt.xy.2)⟩

/-- C4. After `set_params` the moment and averaged-iterate buffers all have
the new parameter buffer's spatial shape, every entry of the second-moment
buffer is non-negative, and the step counter is unchanged; the same holds
after any sequence of two resizes to resolutions A then B. -/
theorem set_params_spec {α : Type} [Zero α] [LinearOrder α]
    (lanczos bilinear : Resampler α) (p : AdamPack α)
    (h' w' : ℕ) (lastIterate : Buf h' w' α) :
    (p.set_params lanczos bilinear h' w' lastIterate).h = h' ∧
    (p.set_params lanczos bilinear h' w' lastIterate).w = w' ∧
    (p.set_params lanczos bilinear h' w' lastIterate).opt.params = lastIterate ∧
    (∀ i j, 0 ≤ (p.set_params lanczos bilinear h' w' lastIterate).opt.g2 i j) ∧
    (p.set_params lanczos bilinear h' w' lastIterate).opt.step = p.opt.step ∧
    (∀ (hA wA hB wB : ℕ) (liA : Buf hA wA α) (liB : Buf hB wB α),
      ((p.set_params lanczos bilinear hA wA liA).set_params
          lanczos bilinear hB wB liB).h = hB ∧
      ((p.set_params lanczos bilinear hA wA liA).set_params
          lanczos bilinear hB wB liB).w = wB ∧
      (∀ i j, 0 ≤ ((p.set_params lanczos bilinear hA wA liA).set_params
          lanczos bilinear hB wB liB).opt.g2 i j) ∧
      ((p.set_params lanczos bilinear hA wA liA).set_params
          lanczos bilinear hB wB liB).opt.step = p.opt.step) := by
  refine ⟨rfl, rfl, rfl, fun i j => le_max_left 0 _, rfl, ?_⟩
  intro hA wA hB wB liA liB
  exact ⟨rfl, rfl, fun i j => le_max_left 0 _, rfl⟩

/-- C5. After `restore_state(saved)` the restoring optimizer holds the saved
parameter buffer and step count verbatim, the moment and averaged-iterate
buffers are the saved ones un-rolled by the saved accumulated offset (the
cancellation of the saved roll), and the accumulated roll offset of the
restored state is zero. -/
theorem restore_state_spec {α : Type} (p saved : AdamPack α) :
    (p.restore_state saved).h = saved.h ∧
    (p.restore_state saved).w = saved.w ∧
    (p.restore_state saved).opt.params = saved.opt.params ∧
    (p.restore_state saved).opt.step = saved.opt.step ∧
    (p.restore_state saved).opt.xy = (0, 0) ∧
    (p.restore_state saved).opt.g1
      = roll2 (-saved.opt.xy.1, -saved.opt.xy.2) saved.opt.g1 ∧
    (p.restore_state saved).opt.g2
      = roll2 (-saved.opt.xy.1, -saved.opt.xy.2) saved.opt.g2 ∧
    (p.restore_state saved).opt.p1
      = roll2 (-saved.opt.xy.1, -saved.opt.xy.2) saved.opt.p1 := by
  by_cases hxy : saved.opt.xy = (0, 0)
  · refine ⟨rfl, rfl, ?_, ?_, ?_, ?_, ?_, ?_⟩ <;>
      simp [AdamPack.restore_state, AdamOptimizer.roll, roll2, hxy]
  · have hneg : ((-saved.opt.xy.1, -saved.opt.xy.2) : ℤ × ℤ) ≠ (0, 0) := by
      intro hc
      apply hxy
      have h1 : -saved.opt.xy.1 = 0 := congrArg Prod.fst hc
      have h2 : -saved.opt.xy.2 = 0 := congrArg Prod.snd hc
      have heta : saved.opt.xy = (saved.opt.xy.1, saved.opt.xy.2) := rfl
      rw [heta, show saved.opt.xy.1 = 0 from by omega,
          show saved.opt.xy.2 = 0 from by omega]
    unfold AdamPack.restore_state AdamOptimizer.roll
    rw [if_neg hneg]
    exact ⟨rfl, rfl, rfl, rfl, by simp, rfl, rfl, rfl⟩

/-! ## Worker pool (`TileWorker` / `TileWorkerPool`)

Queues are modelled as lists of messages; the payload of a work request is
an abstract type `R` (it carries tile data irrelevant to the pool logic).
A worker process's observable state is its `exitcode` (`none` while
running, as in `multiprocessing.Process.exitcode`). -/

/-- A message on a worker's request queue. -/
inductive TileRequest (R : Type) where
  | work (r : R)
  | setThreadCount (threads : ℕ)
  deriving DecidableEq

/-- One `TileWorker`: its request queue, the process exit code (`none`
while running), and whether `terminate()` has been requested. -/
structure TileWorker (R : Type) where
  req_q : List (TileRequest R)
  exitcode : Option ℤ
  term_requested : Bool
  deriving DecidableEq

/-- Python truthiness of `proc.exitcode`: `None` (still running) and `0`
(clean exit) are falsy; only a nonzero exit code is truthy. -/
def exitcodeTruthy (e : Option ℤ) : Bool :=
  match e with
  | none => false
  | some c => c != 0

/-- The finalizer `TileWorker.__del__`: requests termination unless the process already
has a truthy (nonzero) exit code. -/
def TileWorker.del {R : Type} (w : TileWorker R) : TileWorker R :=
  if exitcodeTruthy w.exitcode then w else { w with term_requested := true }

/-- The `TileWorkerPool` state. -/
structure TileWorkerPool (R : Type) where
  workers : List (TileWorker R)
  req_count : ℕ
  next_worker : ℕ
  is_healthy : Bool
  mkl_threads : Option ℕ
  deriving DecidableEq

/-- The constructor `TileWorkerPool.__init__` with `n` devices: `n` fresh workers, zero
request count, cursor at worker 0, healthy. -/
def TileWorkerPool.mkPool (R : Type) (n : ℕ) (mkl : Option ℕ) : TileWorkerPool R :=
  { workers := List.replicate n ⟨[], none, false⟩
    req_count := 0, next_worker := 0, is_healthy := true, mkl_threads := mkl }

/-- Appends a request to the queue of the worker at the given index
(`self.workers[self.next_worker].req_q.put(req)`). -/
def enqueueAt {R : Type} (req : TileRequest R) :
    List (TileWorker R) → ℕ → List (TileWorker R)
  | [], _ => []
  | w :: ws, 0 => { w with req_q := w.req_q ++ [req] } :: ws
  | w :: ws, n + 1 => w :: enqueueAt req ws n

/-- The method `TileWorkerPool.request`: enqueues the request on the worker at the
cursor, counts it, and advances the cursor modulo the worker count. -/
def TileWorkerPool.request {R : Type} (p : TileWorkerPool R)
    (req : TileRequest R) : TileWorkerPool R :=
  { p with
    workers := enqueueAt req p.workers p.next_worker
    req_count := p.req_count + 1
    next_worker := (p.next_worker + 1) % p.workers.length }

/-- The method `TileWorkerPool.set_thread_count`: sends a `SetThreadCount` message to
every worker. -/
def TileWorkerPool.set_thread_count {R : Type} (p : TileWorkerPool R)
    (threads : ℕ) : TileWorkerPool R :=
  { p with
    workers := p.workers.map
      (fun w => { w with req_q := w.req_q ++ [.setThreadCount threads] }) }

/-- The method `TileWorkerPool.reset_next_worker`: when MKL is present, rebalances the
thread budget using the previous round's request count, then zeroes the
request count and resets the cursor to worker 0. -/
def TileWorkerPool.reset_next_worker {R : Type} (p : TileWorkerPool R) :
    TileWorkerPool R :=
  let p1 := match p.mkl_threads with
    | none => p
    | some mt => p.set_thread_count (mt / min p.workers.length (max 1 p.req_count))
  { p1 with req_count := 0, next_worker := 0 }

/-- The finalizer `TileWorkerPool.__del__`: marks the pool unhealthy and finalizes every
worker. -/
def TileWorkerPool.del {R : Type} (p : TileWorkerPool R) : TileWorkerPool R :=
  { p with is_healthy := false, workers := p.workers.map TileWorker.del }

/-- The two `TileWorkerPoolError` conditions `ensure_healthy` can raise. -/
inductive PoolError where
  | alreadyTerminated
  | malfunction
  deriving DecidableEq

/-- The method `TileWorkerPool.ensure_healthy`: raises if the pool was already torn
down; otherwise, if any worker's exit code is truthy (nonzero), tears the
pool down and raises the pool-malfunction error.  Returned as
`(pool after the call, raised error if any)`. -/
def TileWorkerPool.ensure_healthy {R : Type} (p : TileWorkerPool R) :
    TileWorkerPool R × Option PoolError :=
  if p.is_healthy = false then (p, some .alreadyTerminated)
  else if p.workers.any (fun w => exitcodeTruthy w.exitcode) then
    (p.del, some .malfunction)
  else (p, none)

/-- Dispatches a list of requests through `request`, recording for each the
worker index it was sent to. -/
def TileWorkerPool.requestTrace {R : Type} :
    TileWorkerPool R → List (TileRequest R) →
      List (TileRequest R × ℕ) × TileWorkerPool R
  | p, [] => ([], p)
  | p, r :: rs =>
      let rest := TileWorkerPool.requestTrace (p.request r) rs
      ((r, p.next_worker) :: rest.1, rest.2)

/-- One tiling round as performed by `CaffeModel.eval_features_once` and
`eval_sc_grad`: all tile jobs are dispatched through `request`, then
`reset_next_worker()` is called exactly once. -/
def TileWorkerPool.roundDispatch {R : Type} (p : TileWorkerPool R)
    (reqs : List (TileRequest R)) :
    List (TileRequest R × ℕ) × TileWorkerPool R :=
  let res := TileWorkerPool.requestTrace p reqs
  (res.1, res.2.reset_next_worker)

/-- The helper `enqueueAt` preserves the worker count. -/
theorem enqueueAt_length {R : Type} (req : TileRequest R)
    (ws : List (TileWorker R)) (n : ℕ) :
    (enqueueAt req ws n).length = ws.length := by
  induction ws generalizing n with
  | nil => rfl
  | cons w ws ih =>
      cases n with
      | zero => rfl
      | succ n => simp [enqueueAt, ih]

/-- Round-robin assignment from an arbitrary (reduced) cursor: the `i`-th
dispatched job goes to worker `(cursor + i) mod N`. -/
theorem requestTrace_assignments {R : Type} (rs : List (TileRequest R))
    (p : TileWorkerPool R)
    (hred : p.next_worker % p.workers.length = p.next_worker) :
    (TileWorkerPool.requestTrace p rs).1.map Prod.snd
      = (List.range rs.length).map
          (fun i => (p.next_worker + i) % p.workers.length) := by
  induction rs generalizing p with
  | nil => simp [TileWorkerPool.requestTrace]
  | cons r rs ih =>
      have hlen : (p.request r).workers.length = p.workers.length := by
        simp [TileWorkerPool.request, enqueueAt_length]
      have hred' : (p.request r).next_worker % (p.request r).workers.length
          = (p.request r).next_worker := by
        simp only [TileWorkerPool.request, enqueueAt_length]
        exact Nat.mod_mod_of_dvd _ dvd_rfl
      have htail := ih (p.request r) hred'
      simp only [TileWorkerPool.requestTrace, List.map_cons, List.length_cons]
      rw [htail, List.range_succ_eq_map]
      simp only [List.map_cons, List.map_map]
      refine List.cons_eq_cons.mpr ⟨by simp only [Nat.add_zero, hred], ?_⟩
      apply List.map_congr_left
      intro i _
      simp only [Function.comp_apply, TileWorkerPool.request, enqueueAt_length]
      rw [Nat.mod_add_mod]
      congr 1
      omega

/-- C6. For a pool whose cursor is at worker 0 (as at construction and
after every round's single `reset_next_worker()` call), job `i` (0-indexed
within the round) is sent to worker `i mod N`, and after the round's
closing `reset_next_worker()` the cursor is back at worker 0 (and the
request count is zeroed), so the next round's first job again goes to
worker 0. -/
theorem pool_round_robin {R : Type} (p : TileWorkerPool R)
    (reqs : List (TileRequest R)) (h0 : p.next_worker = 0) :
    (TileWorkerPool.requestTrace p reqs).1.map Prod.snd
      = (List.range reqs.length).map (fun i => i % p.workers.length) ∧
    (p.roundDispatch reqs).2.next_worker = 0 ∧
    (p.roundDispatch reqs).2.req_count = 0 := by
  refine ⟨?_, rfl, rfl⟩
  have := requestTrace_assignments reqs p (by rw [h0]; exact Nat.zero_mod _)
  rw [this, h0]
  simp

/-- Concrete pool with two fresh workers, cursor at worker 0. -/
def poolTwo : TileWorkerPool Unit := TileWorkerPool.mkPool Unit 2 none

/-- Witness for C6: on a two-worker pool, three jobs go to workers
0, 1, 0, and the cursor is back at 0 after the round. -/
theorem pool_round_robin_witness :
    (TileWorkerPool.requestTrace poolTwo [.work (), .work (), .work ()]).1.map Prod.snd
      = (List.range ([TileRequest.work (), .work (), .work ()] : List (TileRequest Unit)).length).map
          (fun i => i % poolTwo.workers.length) ∧
    (poolTwo.roundDispatch [.work (), .work (), .work ()]).2.next_worker = 0 ∧
    (poolTwo.roundDispatch [.work (), .work (), .work ()]).2.req_count = 0 :=
  pool_round_robin poolTwo [.work (), .work (), .work ()] rfl

/-- Concrete healthy pool whose single worker exited cleanly (code 0). -/
def poolExitedClean : TileWorkerPool Unit :=
  { workers := [⟨[], some 0, false⟩]
    req_count := 0, next_worker := 0, is_healthy := true, mkl_threads := none }

/-- Counterexample to C7 as stated: this worker *has exited* (its exit code
is present), yet `ensure_healthy` raises nothing and does not tear the pool
down, because the source tests Python truthiness of the exit code and `0`
is falsy. -/
theorem ensure_healthy_clean_exit_cex :
    (poolExitedClean.workers.any (fun w => w.exitcode.isSome)) = true ∧
    poolExitedClean.ensure_healthy = (poolExitedClean, none) :=
  ⟨rfl, rfl⟩

/-- C7 (amended). If any worker has exited with a *nonzero* exit code
(abnormal termination), the next `ensure_healthy` call tears the whole pool
down and raises the pool-malfunction error; once the pool is unhealthy,
every subsequent call raises the workers-already-terminated error — no
partial recovery, and under the poll-before-enqueue protocol no further
jobs are accepted. -/
theorem ensure_healthy_spec {R : Type} (p : TileWorkerPool R)
    (hh : p.is_healthy = true)
    (hex : ∃ w ∈ p.workers, exitcodeTruthy w.exitcode = true) :
    p.ensure_healthy = (p.del, some .malfunction) ∧
    (p.ensure_healthy.1).is_healthy = false ∧
    (p.ensure_healthy.1).ensure_healthy
      = (p.ensure_healthy.1, some .alreadyTerminated) ∧
    (∀ q : TileWorkerPool R, q.is_healthy = false →
      q.ensure_healthy = (q, some .alreadyTerminated)) := by
  have hany : (p.workers.any (fun w => exitcodeTruthy w.exitcode)) = true :=
    List.any_eq_true.mpr (by
      obtain ⟨w, hw, ht⟩ := hex
      exact ⟨w, hw, ht⟩)
  have hmain : p.ensure_healthy = (p.del, some .malfunction) := by
    unfold TileWorkerPool.ensure_healthy
    rw [hh, if_neg (by simp), if_pos hany]
  have hdel : (p.del).is_healthy = false := rfl
  have hterm : ∀ q : TileWorkerPool R, q.is_healthy = false →
      q.ensure_healthy = (q, some .alreadyTerminated) := by
    intro q hq
    unfold TileWorkerPool.ensure_healthy
    rw [hq, if_pos rfl]
  refine ⟨hmain, ?_, ?_, hterm⟩
  · rw [hmain]; exact hdel
  · rw [hmain]; exact hterm _ hdel

/-- Concrete healthy pool whose single worker crashed (exit code 1). -/
def poolCrashed : TileWorkerPool Unit :=
  { workers := [⟨[], some 1, false⟩]
    req_count := 0, next_worker := 0, is_healthy := true, mkl_threads := none }

/-- Witness for C7: on a pool with a crashed worker, `ensure_healthy`
raises the malfunction error and leaves the pool unhealthy. -/
theorem ensure_healthy_spec_witness :
    poolCrashed.ensure_healthy = (poolCrashed.del, some .malfunction) ∧
    (poolCrashed.ensure_healthy.1).is_healthy = false :=
  ⟨(ensure_healthy_spec poolCrashed rfl ⟨⟨[], some 1, false⟩, List.mem_cons_self _ _, rfl⟩).1,
   (ensure_healthy_spec poolCrashed rfl ⟨⟨[], some 1, false⟩, List.mem_cons_self _ _, rfl⟩).2.1⟩

/-! ## Gradient normalization (`normalize`) -/

/-- Machine epsilon for float32: `np.finfo(np.float32).eps = 2⁻²³`. -/
def EPS : ℚ := 1 / 2 ^ 23

/-- The mean `np.mean(abs(arr))` for a flattened array, modelled as a list. -/
def meanAbs (l : List ℚ) : ℚ := (l.map (fun x => |x|)).sum / l.length

/-- The function `normalize(arr)`: divides every entry by `np.mean(abs(arr)) + EPS`. -/
def normalize (l : List ℚ) : List ℚ := l.map (fun x => x / (meanAbs l + EPS))

/-- C9. The normalization divisor `mean(|arr|) + EPS` is bounded below by the
strictly positive machine-epsilon floor and hence is never zero: a
near-zero gradient magnitude is silently clamped and can never produce a
division by zero.  (Arithmetic is modelled exactly; the mean of absolute
values is non-negative, which is the fact the bound rests on.) -/
theorem normalize_divisor_spec (l : List ℚ) :
    0 < EPS ∧
    EPS ≤ meanAbs l + EPS ∧
    meanAbs l + EPS ≠ 0 ∧
    normalize l = l.map (fun x => x / (meanAbs l + EPS)) := by
  have hmean : 0 ≤ meanAbs l := by
    unfold meanAbs
    apply div_nonneg
    · apply List.sum_nonneg
      intro x hx
      simp only [List.mem_map] at hx
      obtain ⟨y, _, rfl⟩ := hx
      exact abs_nonneg y
    · exact_mod_cast Nat.zero_le _
  have heps : (0 : ℚ) < EPS := by norm_num [EPS]
  refine ⟨heps, by linarith, ?_, rfl⟩
  have : (0 : ℚ) < meanAbs l + EPS := by linarith
  exact this.ne'

/-! ## Eager configuration validation (`StyleTransfer.transfer_multiscale`)

Per scale, the driver checks that all content images share one size and
that a non-empty style-mask list matches the style-image count, raising a
`ValueError` in either case before any tile job for the scale is
dispatched (dispatch happens in `transfer`, which is called only after the
checks pass). -/

/-- A PIL image abstracted to its `size` attribute `(w, h)` — the only
attribute the validation logic inspects. -/
structure PILImage where
  size : ℕ × ℕ
  deriving DecidableEq

/-- The two eager configuration `ValueError`s of `transfer_multiscale`. -/
inductive ConfigError where
  | contentSizesDiffer
  | styleMaskCountMismatch
  deriving DecidableEq

/-- The content-image loop: raises if any content image's size differs from
the first one's; otherwise returns the scaled content images.
`rtf` abstracts `resize_to_fit` (external image resampling). -/
def scaleContents (rtf : PILImage → ℕ → PILImage) (size : ℕ) :
    List PILImage → Except ConfigError (List PILImage)
  | [] => .ok []
  | c0 :: cs =>
      if (c0 :: cs).all (fun c => c.size = c0.size) then
        .ok ((c0 :: cs).map (fun c => rtf c size))
      else .error .contentSizesDiffer

/-- The style-mask handling: masks are resized to the scaled content size
`hw`; an empty mask list is replaced by one all-ones mask per style image;
a non-empty mask list whose length differs from the style-image count
raises a `ValueError`.  `M` abstracts the mask arrays, `resizeM` the
external resampling, and `ones` the all-ones mask. -/
def scaleStyleMasks {M : Type} (resizeM : M → ℕ × ℕ → M) (ones : M)
    (hw : ℕ × ℕ) (numStyles : ℕ) (styleMasks : List M) :
    Except ConfigError (List M) :=
  if styleMasks.length = 0 then .ok (List.replicate numStyles ones)
  else if styleMasks.length = numStyles then
    .ok (styleMasks.map (fun m => resizeM m hw))
  else .error .styleMaskCountMismatch

/-- One scale of `transfer_multiscale` up to tile-job dispatch: the
configuration checks run first and tile jobs are dispatched to the pool
only after both checks pass (`mkJobs` abstracts the tile jobs the scale
generates; an `.error` result carries no dispatched jobs by
construction). -/
def transferScaleStep {R M : Type} (rtf : PILImage → ℕ → PILImage)
    (resizeM : M → ℕ × ℕ → M) (ones : M) (size : ℕ)
    (contentImages styleImages : List PILImage) (styleMasks : List M)
    (pool : TileWorkerPool R)
    (mkJobs : List PILImage → List M → List (TileRequest R)) :
    Except ConfigError (List (TileRequest R × ℕ) × TileWorkerPool R) := do
  let contentScaled ← scaleContents rtf size contentImages
  let hw : ℕ × ℕ := match contentScaled with
    | c :: _ => (c.size.2, c.size.1)
    | [] => (0, 0)
  let masksScaled ← scaleStyleMasks resizeM ones hw styleImages.length styleMasks
  pure (pool.roundDispatch (mkJobs contentScaled masksScaled))

/-- C8. A mismatched count of style images versus style masks (when a
non-empty mask list is given), or content images whose sizes are not all
equal, makes the per-scale preprocessing return the corresponding
configuration error (`ValueError`), and the step therefore dispatches no
tile job to any worker (the error branch produces no job trace). -/
theorem config_errors_before_dispatch {R M : Type} (rtf : PILImage → ℕ → PILImage)
    (resizeM : M → ℕ × ℕ → M) (ones : M) (size : ℕ)
    (c0 : PILImage) (cs : List PILImage) (styleImages : List PILImage)
    (styleMasks : List M) (pool : TileWorkerPool R)
    (mkJobs : List PILImage → List M → List (TileRequest R)) :
    ((∃ c ∈ c0 :: cs, c.size ≠ c0.size) →
      transferScaleStep rtf resizeM ones size (c0 :: cs) styleImages styleMasks pool mkJobs
        = .error .contentSizesDiffer) ∧
    ((∀ c ∈ c0 :: cs, c.size = c0.size) →
      styleMasks ≠ [] → styleMasks.length ≠ styleImages.length →
      transferScaleStep rtf resizeM ones size (c0 :: cs) styleImages styleMasks pool mkJobs
        = .error .styleMaskCountMismatch) := by
  constructor
  · intro hex
    have hall : ((c0 :: cs).all (fun c => decide (c.size = c0.size))) = false := by
      obtain ⟨c, hc, hne⟩ := hex
      apply List.all_eq_false.mpr
      exact ⟨c, hc, by simpa using hne⟩
    simp only [transferScaleStep, scaleContents, hall, Bool.false_eq_true, if_false]
    rfl
  · intro hall hne hlen
    have hall' : ((c0 :: cs).all (fun c => decide (c.size = c0.size))) = true := by
      apply List.all_eq_true.mpr
      intro c hc
      simpa using hall c hc
    have hm0 : styleMasks.length ≠ 0 := by
      intro hc
      exact hne (List.length_eq_zero.mp hc)
    simp only [transferScaleStep, scaleContents, hall', if_true]
    simp only [scaleStyleMasks, if_neg hm0, if_neg hlen]
    rfl

/-- Witness for C8: two content images of different sizes yield the
content-size configuration error (and hence no dispatched jobs). -/
theorem config_errors_before_dispatch_witness :
    transferScaleStep (fun c _ => c) (fun (m : Unit) _ => m) () 256
        [⟨(2, 2)⟩, ⟨(3, 3)⟩] [] [] poolTwo (fun _ _ => [])
      = .error .contentSizesDiffer :=
  (config_errors_before_dispatch (fun c _ => c) (fun (m : Unit) _ => m) () 256
      ⟨(2, 2)⟩ [⟨(3, 3)⟩] [] [] poolTwo (fun _ _ => [])).1
    ⟨⟨(3, 3)⟩, by simp, by decide⟩

end StyleTransfer
